import Mathlib

/-!
Verification of the transliteration and script-classification engine of the
`namegen` repository (`namechoose/translit.py` and `namechoose/checkdata.py`).

The Python modules are shallowly embedded: the two module-level `OrderedDict`
LRU caches become explicit association lists ordered from least recently used
(front) to most recently used (back), file I/O becomes an environment function
from filenames to parsed rule files, and exceptions become `Except` values.
The `while` loop of `translit` is embedded with explicit fuel, since the
source loop does not terminate when a rule matches a zero-length run.
-/

namespace Namegen

/-- Model of a compiled regular expression (the result of `re.compile`).
`regex.match(s, pos)` anchors the pattern at `pos` and never inspects the
text before `pos` for the pattern classes used by rule files, so a compiled
pattern is modelled by its matching function on the suffix of the input that
starts at the scan position: `run suffix = some n` means the pattern matches
a run of length `n = len(match.group())` there, `none` means no match.
A zero-length match (`some 0`) is a truthy match object in Python. -/
structure Regex where
  run : List Char → Option Nat

/-- A rule pattern as stored in a ruleset's `rules` list: Python is
dynamically typed, so the first component of a rule is either the raw JSON
pattern string (just after parsing) or a compiled pattern (after
`ruleset_by_id` has compiled the ruleset in place). -/
inductive Pat where
  | raw : String → Pat
  | compiled : Regex → Pat

/-- Modelled from the spec: `re.compile` on a pattern string (the Python
`re` library is outside the repository).  The spec describes a rule pattern
as "a regular-expression-style matcher anchored to match starting at the
current scan offset"; the model interprets the pattern as a literal string
matcher, the anchored fragment sufficient for every claim, which quantifies
over arbitrary matchers via `Regex` rather than over pattern syntax. -/
def compile (pattern : String) : Regex :=
  ⟨fun cs => if pattern.toList.isPrefixOf cs then some pattern.length else none⟩

/-- `re.compile` applied to whatever sits in a rule's first slot: a raw
string is compiled, an already-compiled pattern is returned unchanged
(Python's `re.compile` accepts a compiled pattern and returns it as is). -/
def compilePat : Pat → Regex
  | Pat.raw pattern => compile pattern
  | Pat.compiled r => r

/-- One ruleset as it appears as a value in a rule file: the JSON object
`{"from_script": ..., "rules": [[pattern, output], ...]}`.  Rule order is
significant. -/
structure RulesetData where
  from_script : String
  rules : List (Pat × String)

/-- A parsed rule file: the JSON top-level object, a map from ruleset
identifiers to ruleset definitions, in key order. -/
abbrev RuleFile := List (String × RulesetData)

/-- The filesystem as seen by `json.load(open(filename))`: `some rf` is a
successful parse, `none` means the open or the parse raises. -/
abbrev Env := String → Option RuleFile

/-- Python exceptions that escape the embedded functions. -/
inductive PyError where
  | ioError : PyError
  | typeError : PyError
deriving DecidableEq

/-- `_CACHE_LIMIT = 10` (translit.py line 26). -/
def _CACHE_LIMIT : Nat := 10

/-- `OrderedDict` lookup (`d[k]` without the `KeyError` branch): first
binding of the key, or `none`. -/
def odLookup {α β : Type} [DecidableEq α] (k : α) : List (α × β) → Option β
  | [] => none
  | (k', v) :: rest => if k' = k then some v else odLookup k rest

/-- `d[k] = v` on an `OrderedDict`: a new key is appended at the
most-recently-used end; an existing key keeps its position and gets the new
value. -/
def odInsert {α β : Type} [DecidableEq α] (k : α) (v : β) : List (α × β) → List (α × β)
  | [] => [(k, v)]
  | (k', v') :: rest => if k' = k then (k, v) :: rest else (k', v') :: odInsert k v rest

/-- `d.move_to_end(k)`: the entry for `k` is moved to the
most-recently-used end, keeping its value.  (In the source it is only
called right after a successful lookup.) -/
def odMoveToEnd {α β : Type} [DecidableEq α] (k : α) (d : List (α × β)) : List (α × β) :=
  match odLookup k d with
  | none => d
  | some v => (d.filter fun kv => decide ¬(kv.1 = k)) ++ [(k, v)]

/-- `d.popitem()`: `OrderedDict.popitem` defaults to LIFO order and removes
the entry at the most-recently-used end — the entry that was just
inserted. -/
def odPopItem {α β : Type} (d : List (α × β)) : List (α × β) :=
  d.dropLast

/-- Replace the value bound to `k`, if the key is present; otherwise do
nothing.  This models mutating an object that the cache may or may not
still hold: when the object was evicted, the mutation is invisible. -/
def odSet {α β : Type} [DecidableEq α] (k : α) (v : β) : List (α × β) → List (α × β)
  | [] => []
  | (k', v') :: rest => if k' = k then (k, v) :: rest else (k', v') :: odSet k v rest

/-- `if len(d) > _CACHE_LIMIT: d.popitem()` (translit.py lines 70-72 and
81-83). -/
def odTrim {α β : Type} (d : List (α × β)) : List (α × β) :=
  if d.length > _CACHE_LIMIT then odPopItem d else d

/-- The module-level mutable state of `translit.py`: `_cached_rulefiles`
and `_cached_rulesets`, each an `OrderedDict` ordered from least recently
used to most recently used.  A ruleset-cache value of `none` records a key
that was looked up and found absent. -/
structure Store where
  rulefiles : List (String × RuleFile)
  rulesets : List ((String × String) × Option RulesetData)

/-- `ruleset['rules'] = list((re.compile(regex), output) for regex, output
in ruleset['rules'])` (translit.py lines 77-78): every pattern in the list
is compiled in place. -/
def compileRules (rules : List (Pat × String)) : List (Pat × String) :=
  rules.map fun po => (Pat.compiled (compilePat po.1), po.2)

/-- Lines 74-85 of translit.py: the rule file is in hand (from the cache or
freshly loaded); look the ruleset up in it, compile its rules in place
(which mutates the ruleset object inside the rule file, hence `odSet` on
the file cache), store the result — possibly `none` — in the ruleset
cache, and trim that cache. -/
def rulesetFromFile (st : Store) (rulefile : RuleFile) (ruleset_id filename : String) :
    Except PyError (Option RulesetData × Store) :=
  match odLookup ruleset_id rulefile with
  | none =>
      Except.ok (none,
        { st with rulesets := odTrim (odInsert (filename, ruleset_id) none st.rulesets) })
  | some rsd =>
      let rsd' : RulesetData := { rsd with rules := compileRules rsd.rules }
      let files' := odSet filename (odSet ruleset_id rsd' rulefile) st.rulefiles
      Except.ok (some rsd',
        { rulefiles := files',
          rulesets := odTrim (odInsert (filename, ruleset_id) (some rsd') st.rulesets) })

/-- `ruleset_by_id` (translit.py lines 40-85).  The ruleset cache is tried
first (a hit refreshes recency), then the file cache (likewise), then the
file is loaded from the environment — an unreadable or unparseable file
raises before either cache is touched. -/
def ruleset_by_id (env : Env) (st : Store) (ruleset_id filename : String) :
    Except PyError (Option RulesetData × Store) :=
  match odLookup (filename, ruleset_id) st.rulesets with
  | some from_cache =>
      Except.ok (from_cache,
        { st with rulesets := odMoveToEnd (filename, ruleset_id) st.rulesets })
  | none =>
      match odLookup filename st.rulefiles with
      | some rulefile =>
          rulesetFromFile { st with rulefiles := odMoveToEnd filename st.rulefiles }
            rulefile ruleset_id filename
      | none =>
          match env filename with
          | none => Except.error PyError.ioError
          | some rulefile =>
              rulesetFromFile
                { st with rulefiles := odTrim (odInsert filename rulefile st.rulefiles) }
                rulefile ruleset_id filename

/-- The rule list of a resolved ruleset as the matcher/output pairs the
scan loop iterates over.  A ruleset returned by `ruleset_by_id` always
holds compiled patterns, on which `compilePat` is the identity. -/
def compiledRules (rsd : RulesetData) : List (Regex × String) :=
  rsd.rules.map fun po => (compilePat po.1, po.2)

/-- The inner `for regex, output in ruleset['rules']` loop of `translit`
(lines 106-113): the first rule in declared order whose pattern matches at
the current position, together with the length of its match. -/
def firstMatch (rules : List (Regex × String)) (suffix : List Char) : Option (String × Nat) :=
  match rules with
  | [] => none
  | (r, out) :: rest =>
      match r.run suffix with
      | some n => some (out, n)
      | none => firstMatch rest suffix

/-- `''.join(result)`. -/
def joinPieces : List String → String
  | [] => ""
  | p :: rest => p ++ joinPieces rest

/-- The `while pos < len(s)` loop of `translit` (lines 104-118), with
explicit fuel: one unit of fuel per iteration.  `none` means the fuel ran
out — with fuel `len s + 1` that only happens on a run that loops forever
(a matched run of length zero leaves `pos` unchanged and repeats the very
same iteration). -/
def translitLoop (rules : List (Regex × String)) (s : List Char) :
    Nat → Nat → Option (List String)
  | 0, _ => none
  | fuel + 1, pos =>
      if h : pos < s.length then
        match firstMatch rules (s.drop pos) with
        | some (out, n) => (translitLoop rules s fuel (pos + n)).map (fun l => out :: l)
        | none =>
            (translitLoop rules s fuel (pos + 1)).map
              (fun l => String.singleton (s.get ⟨pos, h⟩) :: l)
      else some []

/-- The body of `translit` after a ruleset has been resolved: scan from
position 0 and join the collected pieces.  `none` means the source loop
diverges on this input. -/
def translitStr (rsd : RulesetData) (s : String) : Option String :=
  Option.map joinPieces (translitLoop (compiledRules rsd) s.toList (s.toList.length + 1) 0)

/-- `translit` (translit.py lines 87-119): resolve the ruleset (threading
the caches); a missing ruleset means the string is returned unchanged. -/
def translit (env : Env) (st : Store) (s ruleset_id filename : String) :
    Except PyError (Option String × Store) :=
  match ruleset_by_id env st ruleset_id filename with
  | Except.error e => Except.error e
  | Except.ok (none, st') => Except.ok (some s, st')
  | Except.ok (some rsd, st') => Except.ok (translitStr rsd s, st')

/-- `BICAMERAL = ['Armn', 'Cyrl', 'Grek', 'Latn']` (translit.py line 38). -/
def BICAMERAL : List String := ["Armn", "Cyrl", "Grek", "Latn"]

/-- Modelled from the spec: Python's built-in `str.casefold` (outside the
repository; the spec leaves the exact folding open between full
case-folding and simple lowering).  Modelled as character-wise simple
folding of the Latin, Cyrillic and Greek uppercase ranges; the claims
depend only on folded equality being used, not on the folding table. -/
def caseFoldChar (c : Char) : Char :=
  if 65 ≤ c.toNat ∧ c.toNat ≤ 90 then Char.ofNat (c.toNat + 32)
  else if 0x410 ≤ c.toNat ∧ c.toNat ≤ 0x42F then Char.ofNat (c.toNat + 32)
  else if 0x391 ≤ c.toNat ∧ c.toNat ≤ 0x3A9 ∧ c.toNat ≠ 0x3A2 then Char.ofNat (c.toNat + 32)
  else if c.toNat = 0x401 then Char.ofNat 0x451
  else c

/-- `s.casefold()` as character-wise folding. -/
def caseFold (s : String) : String := String.map caseFoldChar s

/-- `is_translit` (translit.py lines 121-134).  `translit` runs first and
its cache effects happen first; if that call never returns (fuel exhausted,
first component `none`) nothing later is observable.  `ruleset_by_id` is
then consulted again: a `None` ruleset makes `ruleset["from_script"]` raise
`TypeError`.  Python 3 strings always have `casefold`, so the
`AttributeError` fallback to `lower` is dead code. -/
def is_translit (env : Env) (st : Store) (expected s ruleset_id filename : String) :
    Except PyError (Option Bool × Store) :=
  match translit env st s ruleset_id filename with
  | Except.error e => Except.error e
  | Except.ok (none, st1) => Except.ok (none, st1)
  | Except.ok (some actual_translit, st1) =>
      match ruleset_by_id env st1 ruleset_id filename with
      | Except.error e => Except.error e
      | Except.ok (none, _) => Except.error PyError.typeError
      | Except.ok (some rsd, st2) =>
          if rsd.from_script ∈ BICAMERAL then
            Except.ok (some (actual_translit == expected), st2)
          else
            Except.ok (some (caseFold actual_translit == caseFold expected), st2)

/-- The source loop terminates on this ruleset and input: some amount of
fuel completes the scan. -/
def TerminatesOn (rsd : RulesetData) (s : String) : Prop :=
  ∃ fuel, (translitLoop (compiledRules rsd) s.toList fuel 0).isSome

/-! ## Script classification (`checkdata.py`) -/

/-- One parsed data line of `Scripts.txt`: `START[..END] ; SCRIPT`
(checkdata.py lines 390-393); `stop` is the optional `END` code point. -/
structure ScriptEntry where
  start : Nat
  stop : Option Nat
  script : String

/-- `script_of` (checkdata.py lines 394-429) on the parsed table: scan the
entries in order; an entry matches when the code point equals `start`, or
exceeds `start`, has a declared `end` and does not exceed it; `'Unknown'`
when the table is exhausted. -/
def script_of (table : List ScriptEntry) (codepoint : Nat) : String :=
  match table with
  | [] => "Unknown"
  | e :: rest =>
      if codepoint = e.start then e.script
      else if codepoint > e.start then
        match e.stop with
        | some stop => if codepoint ≤ stop then e.script else script_of rest codepoint
        | none => script_of rest codepoint
      else script_of rest codepoint

/-- The inclusive range `[start, end]` of a table entry contains the code
point; an entry with no declared end is the single-point range
`[start, start]`. -/
def entryContains (e : ScriptEntry) (cp : Nat) : Prop :=
  e.start ≤ cp ∧ cp ≤ e.stop.getD e.start

instance (e : ScriptEntry) (cp : Nat) : Decidable (entryContains e cp) :=
  inferInstanceAs (Decidable (_ ∧ _))

/-- `IGNORABLE = ['Common', 'Inherited', 'Unknown']`
(checkdata.py line 277). -/
def IGNORABLE : List String := ["Common", "Inherited", "Unknown"]

/-- The `ValueError` raised by `check_for_script_mixing`: it reports the
offending string and the two clashing script names. -/
structure MixedScriptError where
  s : String
  script_a : String
  script_b : String

/-- The `for char in s` loop of `check_for_script_mixing` (checkdata.py
lines 278-287), carrying `final_script`: neutral scripts are skipped, the
first non-neutral script is established, and the first differing
non-neutral script raises. -/
def checkMixGo (table : List ScriptEntry) (s : String) :
    List Char → Option String → Except MixedScriptError (Option String)
  | [], final_script => Except.ok final_script
  | c :: rest, final_script =>
      let script := script_of table c.toNat
      if script ∈ IGNORABLE then checkMixGo table s rest final_script
      else
        match final_script with
        | none => checkMixGo table s rest (some script)
        | some fs =>
            if fs = script then checkMixGo table s rest (some fs)
            else Except.error ⟨s, fs, script⟩

/-- `check_for_script_mixing` (checkdata.py lines 275-288): `ok` returns
the established script (`none` when the string is empty or all-neutral). -/
def check_for_script_mixing (table : List ScriptEntry) (s : String) :
    Except MixedScriptError (Option String) :=
  checkMixGo table s s.toList none

/-- The scripts of the characters of a string, in order, with the
script-neutral ones dropped: the sequence whose head is the established
script. -/
def nonNeutralScripts (table : List ScriptEntry) (cs : List Char) : List String :=
  (cs.map fun c => script_of table c.toNat).filter fun x => decide (x ∉ IGNORABLE)

/-! ## Declarative description of the scan loop -/

/-- One iteration of the scan loop of `translit`, described declaratively:
at position `pos` either some rule matches — and then the applied rule is
the one at the least matching index `i`, its output is the emitted piece
and the position advances by the length of the matched run — or no rule
matches and the single character at `pos` is emitted with the position
advancing by one. -/
inductive ScanStep (rules : List (Regex × String)) (s : List Char) :
    Nat → String → Nat → Prop where
  | rule (pos i : Nat) (r : Regex) (out : String) (n : Nat)
      (hpos : pos < s.length)
      (hget : rules.get? i = some (r, out))
      (hrun : r.run (s.drop pos) = some n)
      (hfirst : ∀ j, j < i → ∀ rj oj, rules.get? j = some (rj, oj) →
        rj.run (s.drop pos) = none) :
      ScanStep rules s pos out (pos + n)
  | copy (pos : Nat) (h : pos < s.length)
      (hnone : ∀ j rj oj, rules.get? j = some (rj, oj) → rj.run (s.drop pos) = none) :
      ScanStep rules s pos (String.singleton (s.get ⟨pos, h⟩)) (pos + 1)

/-- The whole scan, declaratively: from a given position the loop emits a
sequence of pieces, one per iteration, whose concatenation is the result;
the scan ends exactly when the position has reached the end of the
input. -/
inductive Scans (rules : List (Regex × String)) (s : List Char) : Nat → String → Prop where
  | done (pos : Nat) (h : s.length ≤ pos) : Scans rules s pos ""
  | step (pos pos' : Nat) (piece rest : String)
      (h1 : ScanStep rules s pos piece pos') (h2 : Scans rules s pos' rest) :
      Scans rules s pos (piece ++ rest)

/-- The file-level cache left behind by a call to `ruleset_by_id`
(`none` when the call raised). -/
def fileCacheContents (x : Except PyError (Option RulesetData × Store)) :
    Option (List (String × RuleFile)) :=
  match x with
  | Except.ok (_, st) => some st.rulefiles
  | Except.error _ => none

/-! ## Concrete rule files, stores and tables used as test inputs -/

/-- A rule file holding a single ruleset `ru` with Cyrillic source script
and no rules. -/
def rf2 : RuleFile := [("ru", ⟨"Cyrl", []⟩)]

/-- A filesystem with the single readable rule file `f` containing
`rf2`. -/
def envW2 : Env := fun fn => if fn = "f" then some rf2 else none

/-- A ruleset cache already filled to the bound with ten distinct keys,
`k1` the least recently used and `k10` the most recently used, all
recorded misses. -/
def tenEntries : List ((String × String) × Option RulesetData) :=
  [(("f", "k1"), none), (("f", "k2"), none), (("f", "k3"), none), (("f", "k4"), none),
   (("f", "k5"), none), (("f", "k6"), none), (("f", "k7"), none), (("f", "k8"), none),
   (("f", "k9"), none), (("f", "k10"), none)]

/-- A store whose file cache holds `f` and whose ruleset cache is full. -/
def st10 : Store := ⟨[("f", rf2)], tenEntries⟩

/-- The store after looking the absent key `nonexistent` up in `f`
starting from empty caches: the file is cached and the miss is
recorded. -/
def stAfterMiss : Store := ⟨[("f", rf2)], [(("f", "nonexistent"), none)]⟩

/-- The ruleset `ru` of `rf2` as `ruleset_by_id` returns it. -/
def rsdCyrl : RulesetData := ⟨"Cyrl", []⟩

/-- The store after resolving `ru` from `f` starting from empty caches. -/
def st6 : Store := ⟨[("f", rf2)], [(("f", "ru"), some rsdCyrl)]⟩

/-- A rule file as it comes out of the parser: the rules of `ru` are raw
pattern strings. -/
def rfRaw : RuleFile := [("ru", ⟨"Cyrl", [(Pat.raw "a", "b")]⟩)]

/-- A store whose file cache holds the freshly parsed `rfRaw` under the
name `fC`, with an empty ruleset cache. -/
def stC : Store := ⟨[("fC", rfRaw)], []⟩

/-- The ruleset of `rfRaw` after its rules have been compiled. -/
def rsdComp : RulesetData := ⟨"Cyrl", [(Pat.compiled (compile "a"), "b")]⟩

/-- `rfRaw` after the in-place compilation of `ru`. -/
def rfComp : RuleFile := [("ru", rsdComp)]

/-- A store whose cached copy of `fC` already holds compiled rules. -/
def stW10 : Store := ⟨[("fC", rfComp)], []⟩

/-- A matcher that recognizes a zero-length run at every position (such as
the regular expression `a*` away from any `a`). -/
def regexZero : Regex := ⟨fun _ => some 0⟩

/-- A ruleset containing a rule whose matcher can match a zero-length
run. -/
def rsdZero : RulesetData := ⟨"Latn", [(Pat.compiled regexZero, "x")]⟩

/-- A matcher that always consumes exactly one character. -/
def regexOne : Regex := ⟨fun _ => some 1⟩

/-- A ruleset all of whose matchers consume at least one character on
every match. -/
def rsdOne : RulesetData := ⟨"Latn", [(Pat.compiled regexOne, "x")]⟩

/-- A matcher that never matches. -/
def regexNone : Regex := ⟨fun _ => none⟩

/-- A non-empty ruleset whose single rule never matches. -/
def rsdNone : RulesetData := ⟨"Latn", [(Pat.compiled regexNone, "z")]⟩

/-- A two-entry script range table: Latin capitals and the Cyrillic
block. -/
def tableW : List ScriptEntry :=
  [⟨0x41, some 0x5A, "Latin"⟩, ⟨0x400, some 0x4FF, "Cyrillic"⟩]

/-! ## Theorems -/

/-- C2: cache eviction does NOT remove the least-recently-used entry.
`OrderedDict.popitem()` defaults to LIFO order, so when the insertion of
the eleventh distinct key `k11` pushes the ruleset cache past its bound of
ten, the entry evicted is the one just inserted: afterwards `k11` is
absent while the least-recently-used key `k1` is still retrievable, and
the final cache is exactly the cache before the call.  This contradicts
the claimed LRU policy (and the source's own `LRU caches` comments). -/
theorem cache_eviction_drops_newest :
    ruleset_by_id envW2 st10 "k11" "f" = Except.ok (none, st10) ∧
    odLookup ("f", "k11") st10.rulesets = none ∧
    odLookup ("f", "k1") st10.rulesets = some none :=
  ⟨rfl, rfl, rfl⟩

/-- C3: with a readable rule file that lacks the requested key,
`is_translit` does not return a distinct "cannot verify" outcome: the
second `ruleset_by_id` call yields `None` and `ruleset["from_script"]`
raises `TypeError`.  Evaluating the embedded code at such an input
produces the error, not a Boolean. -/
theorem is_translit_unknown_ruleset_raises :
    is_translit envW2 ⟨[], []⟩ "x" "y" "nonexistent" "f" = Except.error PyError.typeError :=
  rfl

/-- C5: when the ruleset key resolves to no ruleset (`ruleset_by_id`
returns `None` without raising), `translit` returns its input string
unchanged and raises no error, leaving exactly the cache state the
resolution produced. -/
theorem translit_identity_fallback (env : Env) (st st' : Store)
    (s ruleset_id filename : String)
    (h : ruleset_by_id env st ruleset_id filename = Except.ok (none, st')) :
    translit env st s ruleset_id filename = Except.ok (some s, st') := by
  unfold translit
  rw [h]

/-- Witness for C5 at a concrete input: the key `nonexistent` is missing
from the parsed file `f`, and `translit` hands back `abc` unchanged. -/
theorem translit_identity_fallback_witness :
    translit envW2 ⟨[], []⟩ "abc" "nonexistent" "f" = Except.ok (some "abc", stAfterMiss) :=
  translit_identity_fallback envW2 ⟨[], []⟩ stAfterMiss "abc" "nonexistent" "f" rfl

/-- C9: the absent key `k11` resolves to `None` without raising — but
the recorded miss does not survive in the ruleset cache: the insertion
pushes the full cache past its bound and `popitem()` immediately evicts
the entry just stored, so a repeated lookup of the same missing key is a
miss again instead of being served from the cache.  The middle conjunct
shows the store does happen before the eviction. -/
theorem missing_key_cached_then_evicted :
    ruleset_by_id envW2 st10 "k11" "f" = Except.ok (none, st10) ∧
    odLookup ("f", "k11") (odInsert ("f", "k11") none st10.rulesets) = some none ∧
    odLookup ("f", "k11") st10.rulesets = none :=
  ⟨rfl, rfl, rfl⟩

/-- C6: for a resolvable ruleset, `is_translit` compares the
transliteration of the source with the candidate using exact string
equality when the ruleset's source script is one of the bicameral scripts
(`Armn`, `Cyrl`, `Grek`, `Latn`), and case-folded equality otherwise. -/
theorem is_translit_case_policy (env : Env) (st st1 st2 : Store)
    (expected s ruleset_id filename t : String) (rsd : RulesetData)
    (h1 : translit env st s ruleset_id filename = Except.ok (some t, st1))
    (h2 : ruleset_by_id env st1 ruleset_id filename = Except.ok (some rsd, st2)) :
    is_translit env st expected s ruleset_id filename =
      Except.ok (some (if rsd.from_script ∈ BICAMERAL then t == expected
                       else caseFold t == caseFold expected), st2) := by
  unfold is_translit
  simp only [h1, h2]
  by_cases hb : rsd.from_script ∈ BICAMERAL
  · rw [if_pos hb, if_pos hb]
  · rw [if_neg hb, if_neg hb]

/-- Witness for C6 at a concrete input: the ruleset `ru` has the bicameral
source script `Cyrl`, its empty rule list transliterates `ab` to itself,
and the comparison with the candidate `Ab` is case-sensitive, hence
`false`. -/
theorem is_translit_case_policy_witness :
    translit envW2 ⟨[], []⟩ "ab" "ru" "f" = Except.ok (some "ab", st6) ∧
    ruleset_by_id envW2 st6 "ru" "f" = Except.ok (some rsdCyrl, st6) ∧
    is_translit envW2 ⟨[], []⟩ "Ab" "ab" "ru" "f" = Except.ok (some false, st6) :=
  ⟨rfl, rfl,
    (is_translit_case_policy envW2 ⟨[], []⟩ st6 st6 "Ab" "ab" "ru" "f" "ab" rsdCyrl
      rfl rfl).trans rfl⟩

/-- C7: for a well-formed table (each declared range has `start ≤ end`),
`script_of` returns the script of the first entry, in table order, whose
inclusive range contains the code point — an entry with no declared end
standing for the single-point range `[start, start]` — and `Unknown` when
no entry contains it. -/
theorem script_of_first_containing (table : List ScriptEntry) (cp : Nat)
    (hwf : ∀ e ∈ table, e.start ≤ e.stop.getD e.start) :
    script_of table cp =
      ((table.find? fun e => decide (entryContains e cp)).map ScriptEntry.script).getD
        "Unknown" := by
  induction table with
  | nil => rfl
  | cons e rest ih =>
      have hwe : e.start ≤ e.stop.getD e.start := hwf e (List.mem_cons_self _ _)
      have hwrest : ∀ e' ∈ rest, e'.start ≤ e'.stop.getD e'.start :=
        fun e' h' => hwf e' (List.mem_cons_of_mem _ h')
      by_cases hc : entryContains e cp
      · rw [List.find?_cons_of_pos _ (by simpa using hc)]
        show script_of (e :: rest) cp = e.script
        obtain ⟨h1, h2⟩ := hc
        conv_lhs => unfold script_of
        rcases Nat.eq_or_lt_of_le h1 with heq | hlt
        · rw [if_pos heq.symm]
        · rw [if_neg (by omega), if_pos (by omega)]
          rcases hstop : e.stop with _ | stop
          · rw [hstop] at h2
            simp only [Option.getD_none] at h2
            exfalso
            omega
          · rw [hstop] at h2
            simp only [Option.getD_some] at h2
            dsimp only
            rw [if_pos h2]
      · rw [List.find?_cons_of_neg _ (by simpa using hc)]
        rw [← ih hwrest]
        have hne : cp ≠ e.start := fun h => hc ⟨Nat.le_of_eq h.symm, h ▸ hwe⟩
        conv_lhs => unfold script_of
        rw [if_neg hne]
        by_cases hgt : cp > e.start
        · rw [if_pos hgt]
          rcases hstop : e.stop with _ | stop
          · rfl
          · dsimp only
            rw [if_neg ?hle]
            case hle =>
              intro hle
              exact hc ⟨Nat.le_of_lt hgt, by rw [hstop]; simpa using hle⟩
        · rw [if_neg hgt]

/-- Witness for C7 at a concrete input: on the two-range table the
Cyrillic capital А (U+0410) is classified by the first (and only)
containing entry. -/
theorem script_of_first_containing_witness :
    script_of tableW 0x410 = "Cyrillic" ∧
    script_of tableW 0x410 =
      ((tableW.find? fun e => decide (entryContains e 0x410)).map ScriptEntry.script).getD
        "Unknown" :=
  ⟨rfl, script_of_first_containing tableW 0x410 (by decide)⟩

theorem nonNeutralScripts_cons (table : List ScriptEntry) (c : Char) (cs : List Char) :
    nonNeutralScripts table (c :: cs) =
      if script_of table c.toNat ∈ IGNORABLE then nonNeutralScripts table cs
      else script_of table c.toNat :: nonNeutralScripts table cs := by
  unfold nonNeutralScripts
  rw [List.map_cons, List.filter_cons]
  by_cases hi : script_of table c.toNat ∈ IGNORABLE
  · simp [hi]
  · simp [hi]

theorem checkMixGo_some (table : List ScriptEntry) (s : String) (cs : List Char)
    (a : String) :
    checkMixGo table s cs (some a) =
      match (nonNeutralScripts table cs).find? fun x => decide (x ≠ a) with
      | none => Except.ok (some a)
      | some b => Except.error ⟨s, a, b⟩ := by
  induction cs with
  | nil => rfl
  | cons c rest ih =>
      rw [nonNeutralScripts_cons]
      unfold checkMixGo
      by_cases hi : script_of table c.toNat ∈ IGNORABLE
      · rw [if_pos hi, if_pos hi]
        exact ih
      · rw [if_neg hi, if_neg hi]
        dsimp only
        by_cases he : a = script_of table c.toNat
        · rw [if_pos he]
          rw [List.find?_cons_of_neg _ (by simp [he])]
          exact ih
        · rw [if_neg he]
          rw [List.find?_cons_of_pos _ (by simpa using Ne.symm he)]

theorem checkMixGo_none (table : List ScriptEntry) (s : String) (cs : List Char) :
    checkMixGo table s cs none =
      match nonNeutralScripts table cs with
      | [] => Except.ok none
      | a :: rest =>
          match rest.find? fun x => decide (x ≠ a) with
          | none => Except.ok (some a)
          | some b => Except.error ⟨s, a, b⟩ := by
  induction cs with
  | nil => rfl
  | cons c rest ih =>
      rw [nonNeutralScripts_cons]
      unfold checkMixGo
      by_cases hi : script_of table c.toNat ∈ IGNORABLE
      · rw [if_pos hi, if_pos hi]
        exact ih
      · rw [if_neg hi, if_neg hi]
        exact checkMixGo_some table s rest (script_of table c.toNat)

/-- C8: the mixed-script check skips characters whose script is `Common`,
`Inherited` or `Unknown`; the first non-neutral script establishes the
reference; the check fails exactly when some later non-neutral script
differs, and the reported error carries the offending string, the
established script and the FIRST differing script (nothing past the first
violation is reported); an empty or all-neutral string succeeds with no
established script. -/
theorem check_mixing_first_violation (table : List ScriptEntry) (s : String) :
    match nonNeutralScripts table s.toList with
    | [] => check_for_script_mixing table s = Except.ok none
    | a :: rest =>
        match rest.find? fun x => decide (x ≠ a) with
        | none => check_for_script_mixing table s = Except.ok (some a)
        | some b => check_for_script_mixing table s = Except.error ⟨s, a, b⟩ := by
  have h := checkMixGo_none table s s.toList
  unfold check_for_script_mixing
  rcases hnn : nonNeutralScripts table s.toList with _ | ⟨a, rest⟩
  · rw [hnn] at h
    simpa using h
  · rw [hnn] at h
    dsimp only at h ⊢
    rcases hf : rest.find? (fun x => decide (x ≠ a)) with _ | b
    · rw [hf] at h
      exact h
    · rw [hf] at h
      exact h

theorem firstMatch_some (rules : List (Regex × String)) (cs : List Char) (out : String)
    (n : Nat) (h : firstMatch rules cs = some (out, n)) :
    ∃ i r, rules.get? i = some (r, out) ∧ r.run cs = some n ∧
      ∀ j, j < i → ∀ rj oj, rules.get? j = some (rj, oj) → rj.run cs = none := by
  induction rules with
  | nil => exact absurd h (by simp [firstMatch])
  | cons ro rest ih =>
      obtain ⟨r0, o0⟩ := ro
      unfold firstMatch at h
      rcases hr : r0.run cs with _ | n0
      · rw [hr] at h
        obtain ⟨i, r, hget, hrun, hfirst⟩ := ih h
        refine ⟨i + 1, r, by simpa using hget, hrun, ?_⟩
        intro j hj rj oj hgj
        cases j with
        | zero =>
            rw [List.get?_cons_zero] at hgj
            injection hgj with hgj
            injection hgj with hgj1 hgj2
            subst hgj1
            exact hr
        | succ j =>
            rw [List.get?_cons_succ] at hgj
            exact hfirst j (by omega) rj oj hgj
      · rw [hr] at h
        injection h with h
        injection h with h1 h2
        subst h1
        subst h2
        refine ⟨0, r0, List.get?_cons_zero, hr, ?_⟩
        intro j hj
        omega

theorem firstMatch_none (rules : List (Regex × String)) (cs : List Char)
    (h : firstMatch rules cs = none) :
    ∀ j rj oj, rules.get? j = some (rj, oj) → rj.run cs = none := by
  induction rules with
  | nil => intro j rj oj hg; simp at hg
  | cons ro rest ih =>
      obtain ⟨r0, o0⟩ := ro
      unfold firstMatch at h
      rcases hr : r0.run cs with _ | n0
      · rw [hr] at h
        intro j rj oj hg
        cases j with
        | zero =>
            rw [List.get?_cons_zero] at hg
            injection hg with hg
            injection hg with hg1 hg2
            subst hg1
            exact hr
        | succ j =>
            rw [List.get?_cons_succ] at hg
            exact ih h j rj oj hg
      · rw [hr] at h
        exact absurd h (by simp)

theorem firstMatch_mem (rules : List (Regex × String)) (cs : List Char) (out : String)
    (n : Nat) (h : firstMatch rules cs = some (out, n)) :
    ∃ r, (r, out) ∈ rules ∧ r.run cs = some n := by
  obtain ⟨i, r, hget, hrun, _⟩ := firstMatch_some rules cs out n h
  exact ⟨r, List.get?_mem hget, hrun⟩

theorem translitLoop_scans (rules : List (Regex × String)) (s : List Char) :
    ∀ fuel pos l, translitLoop rules s fuel pos = some l →
      Scans rules s pos (joinPieces l) := by
  intro fuel
  induction fuel with
  | zero => intro pos l h; exact absurd h (by simp [translitLoop])
  | succ fuel ih =>
      intro pos l h
      unfold translitLoop at h
      by_cases hp : pos < s.length
      · rw [dif_pos hp] at h
        rcases hm : firstMatch rules (s.drop pos) with _ | ⟨out, n⟩
        · rw [hm] at h
          dsimp only at h
          rcases ho : translitLoop rules s fuel (pos + 1) with _ | l'
          · rw [ho] at h; exact absurd h (by simp)
          · rw [ho] at h
            simp only [Option.map_some', Option.some.injEq] at h
            subst h
            exact Scans.step _ _ _ _
              (ScanStep.copy pos hp (firstMatch_none rules _ hm)) (ih _ _ ho)
        · rw [hm] at h
          dsimp only at h
          rcases ho : translitLoop rules s fuel (pos + n) with _ | l'
          · rw [ho] at h; exact absurd h (by simp)
          · rw [ho] at h
            simp only [Option.map_some', Option.some.injEq] at h
            subst h
            obtain ⟨i, r, hget, hrun, hfirst⟩ := firstMatch_some rules _ out n hm
            exact Scans.step _ _ _ _
              (ScanStep.rule pos i r out n hp hget hrun hfirst) (ih _ _ ho)
      · rw [dif_neg hp] at h
        injection h with h
        subst h
        exact Scans.done pos (by omega)

/-- C1: whatever string `translit`'s scan loop produces on a loaded
ruleset with a non-empty rule list is related to the input by the
declarative scan relation: starting from position 0, each iteration either
applies the first rule, in declared order, whose matcher matches at the
current position — appending its replacement and advancing by the length
of the matched run — or, when no rule matches, copies the single character
there and advances by one; the result is the concatenation of the emitted
pieces, and the empty string yields the empty string. -/
theorem translit_first_match_scan (rsd : RulesetData) (s r : String)
    (_hne : rsd.rules ≠ []) (h : translitStr rsd s = some r) :
    Scans (compiledRules rsd) s.toList 0 r ∧ (s = "" → r = "") := by
  unfold translitStr at h
  rcases ho : translitLoop (compiledRules rsd) s.toList (s.toList.length + 1) 0 with _ | l
  · rw [ho] at h
    exact absurd h (by simp)
  · rw [ho] at h
    simp only [Option.map_some', Option.some.injEq] at h
    constructor
    · rw [← h]
      exact translitLoop_scans _ _ _ _ _ ho
    · intro hs
      subst hs
      rw [show ("" : String).toList = [] from rfl] at ho
      simp only [translitLoop, List.length_nil] at ho
      rw [dif_neg (by omega)] at ho
      injection ho with ho
      rw [← h, ← ho]
      rfl

/-- Witness for C1 at a concrete input: the single never-matching rule of
`rsdNone` makes the loop copy both characters of `ab` verbatim, and the
scan relation holds for the result. -/
theorem translit_first_match_scan_witness :
    rsdNone.rules ≠ [] ∧ translitStr rsdNone "ab" = some "ab" ∧
    (Scans (compiledRules rsdNone) "ab".toList 0 "ab" ∧ ("ab" = "" → "ab" = "")) :=
  ⟨by simp [rsdNone], rfl, translit_first_match_scan rsdNone "ab" "ab" (by simp [rsdNone]) rfl⟩

theorem translitLoop_zero_run (fuel : Nat) :
    translitLoop (compiledRules rsdZero) "a".toList fuel 0 = none := by
  induction fuel with
  | zero => rfl
  | succ fuel ih =>
      have hstep : translitLoop (compiledRules rsdZero) "a".toList (fuel + 1) 0 =
          (translitLoop (compiledRules rsdZero) "a".toList fuel 0).map
            (fun l => "x" :: l) := rfl
      rw [hstep, ih]
      rfl

/-- Counterexample to C4: the engine does not guard against rules whose
matcher can match a zero-length run.  On the ruleset `rsdZero`, whose
single rule matches a zero-length run at every position, the scan loop
over the input `a` never finishes, whatever amount of fuel it is given:
`translit` does not terminate there, contradicting the claim's "for every
ruleset". -/
theorem translit_zero_length_diverges : ¬ TerminatesOn rsdZero "a" := by
  intro hterm
  obtain ⟨fuel, hf⟩ := hterm
  rw [translitLoop_zero_run fuel] at hf
  exact absurd hf (by simp)

theorem translitLoop_isSome_of_adv (rules : List (Regex × String)) (s : List Char)
    (hadv : ∀ r out, (r, out) ∈ rules → ∀ cs n, r.run cs = some n → 0 < n) :
    ∀ fuel pos, s.length - pos < fuel → (translitLoop rules s fuel pos).isSome := by
  intro fuel
  induction fuel with
  | zero => intro pos h; omega
  | succ fuel ih =>
      intro pos h
      unfold translitLoop
      by_cases hp : pos < s.length
      · rw [dif_pos hp]
        rcases hm : firstMatch rules (s.drop pos) with _ | ⟨out, n⟩
        · rw [Option.isSome_map']
          exact ih (pos + 1) (by omega)
        · obtain ⟨r, hmem, hrun⟩ := firstMatch_mem rules _ out n hm
          have hn : 0 < n := hadv r out hmem _ n hrun
          rw [Option.isSome_map']
          exact ih (pos + n) (by omega)
      · rw [dif_neg hp]
        rfl

/-- C4 (amended): for every ruleset whose matchers consume at least one
character whenever they match — the zero-length-match case is excluded,
since the engine does not guard against it — the scan loop of `translit`
terminates on every input string, so the result and its length are
well-defined. -/
theorem translit_terminates_of_advancing (rsd : RulesetData) (s : String)
    (hadv : ∀ r out, (r, out) ∈ compiledRules rsd → ∀ cs n, r.run cs = some n → 0 < n) :
    TerminatesOn rsd s ∧ (translitStr rsd s).isSome := by
  have h := translitLoop_isSome_of_adv (compiledRules rsd) s.toList hadv
    (s.toList.length + 1) 0 (by omega)
  refine ⟨⟨s.toList.length + 1, h⟩, ?_⟩
  unfold translitStr
  rw [Option.isSome_map']
  exact h

/-- Witness for C4's amended theorem at a concrete input: every matcher of
`rsdOne` consumes exactly one character, and the scan of `ab`
terminates. -/
theorem translit_terminates_of_advancing_witness :
    TerminatesOn rsdOne "ab" ∧ (translitStr rsdOne "ab").isSome := by
  apply translit_terminates_of_advancing
  intro r out hmem cs n hrun
  simp only [compiledRules, rsdOne, compilePat, List.map_cons, List.map_nil,
    List.mem_singleton, Prod.mk.injEq] at hmem
  obtain ⟨rfl, rfl⟩ := hmem
  simp only [regexOne] at hrun
  injection hrun with hrun
  omega

theorem odLookup_filter_ne_append {α β : Type} [DecidableEq α] (k : α) (v : β)
    (l : List (α × β)) :
    odLookup k ((l.filter fun kv => decide ¬(kv.1 = k)) ++ [(k, v)]) = some v := by
  induction l with
  | nil => simp [odLookup]
  | cons kv rest ih =>
      obtain ⟨k', v'⟩ := kv
      rw [List.filter_cons]
      by_cases hk : k' = k
      · rw [if_neg (by simp [hk])]
        exact ih
      · rw [if_pos (by simpa using hk)]
        rw [List.cons_append]
        unfold odLookup
        rw [if_neg hk]
        exact ih

theorem odLookup_moveToEnd_self {α β : Type} [DecidableEq α] (k : α) (v : β)
    (l : List (α × β)) (h : odLookup k l = some v) :
    odLookup k (odMoveToEnd k l) = some v := by
  unfold odMoveToEnd
  rw [h]
  exact odLookup_filter_ne_append k v l

theorem odSet_self {α β : Type} [DecidableEq α] (k : α) (v : β) (l : List (α × β))
    (h : odLookup k l = some v) : odSet k v l = l := by
  induction l with
  | nil => exact absurd h (by simp [odLookup])
  | cons kv rest ih =>
      obtain ⟨k', v'⟩ := kv
      unfold odLookup at h
      unfold odSet
      by_cases hk : k' = k
      · rw [if_pos hk] at h
        injection h with h
        rw [if_pos hk, hk, h]
      · rw [if_neg hk] at h
        rw [if_neg hk, ih h]

/-- Counterexample to C10: the first lookup of a key mutates the cached
rule-file entry.  Starting from a store whose file cache holds the freshly
parsed `rfRaw` (raw pattern strings), one call to `ruleset_by_id` leaves a
file cache that is no longer the parsed form: the rules of `ru` have been
replaced in place by their compiled form. -/
theorem rulefile_cache_mutated :
    fileCacheContents (ruleset_by_id envW2 stC "ru" "fC") ≠ some [("fC", rfRaw)] := by
  intro h
  rw [show fileCacheContents (ruleset_by_id envW2 stC "ru" "fC") =
      some [("fC", [("ru", ⟨"Cyrl", [(Pat.compiled (compile "a"), "b")]⟩)])] from rfl] at h
  simp [rfRaw] at h

/-- C10 (amended): the cached contents of a rule file are mutated exactly
once per ruleset key — the first lookup of a key compiles that ruleset's
rules in place — and every later lookup leaves the cached contents
unchanged: when the ruleset cache misses but the file cache holds the file
and the requested ruleset's rules are already compiled, the call returns
that ruleset and the file cache keeps exactly its previous entries — the
entry for the file still maps to the identical rule file, only its recency
changes — until eviction reconstructs it. -/
theorem ruleset_by_id_preserves_compiled_rulefiles
    (env : Env) (st : Store) (ruleset_id filename : String) (rf : RuleFile)
    (rsd : RulesetData)
    (hmiss : odLookup (filename, ruleset_id) st.rulesets = none)
    (hfile : odLookup filename st.rulefiles = some rf)
    (hget : odLookup ruleset_id rf = some rsd)
    (hcomp : compileRules rsd.rules = rsd.rules) :
    ruleset_by_id env st ruleset_id filename =
      Except.ok (some rsd,
        { rulefiles := odMoveToEnd filename st.rulefiles,
          rulesets := odTrim (odInsert (filename, ruleset_id) (some rsd) st.rulesets) }) ∧
    odLookup filename (odMoveToEnd filename st.rulefiles) = some rf := by
  have hrsd : ({ rsd with rules := compileRules rsd.rules } : RulesetData) = rsd := by
    rw [hcomp]
  have hmv : odLookup filename (odMoveToEnd filename st.rulefiles) = some rf :=
    odLookup_moveToEnd_self _ _ _ hfile
  refine ⟨?_, hmv⟩
  unfold ruleset_by_id
  rw [hmiss]
  dsimp only
  rw [hfile]
  dsimp only
  unfold rulesetFromFile
  rw [hget]
  dsimp only
  rw [hrsd, odSet_self _ _ _ hget, odSet_self _ _ _ hmv]

/-- Witness for C10's amended theorem at a concrete input: the cached copy
of `fC` already holds compiled rules, and a lookup of `ru` leaves the
cached rule file identical. -/
theorem ruleset_by_id_preserves_compiled_rulefiles_witness :
    odLookup ("fC", "ru") stW10.rulesets = none ∧
    compileRules rsdComp.rules = rsdComp.rules ∧
    (ruleset_by_id envW2 stW10 "ru" "fC" =
      Except.ok (some rsdComp,
        { rulefiles := odMoveToEnd "fC" stW10.rulefiles,
          rulesets := odTrim (odInsert ("fC", "ru") (some rsdComp) stW10.rulesets) }) ∧
    odLookup "fC" (odMoveToEnd "fC" stW10.rulefiles) = some rfComp) :=
  ⟨rfl, rfl,
    ruleset_by_id_preserves_compiled_rulefiles envW2 stW10 "ru" "fC" rfComp rsdComp
      rfl rfl rfl rfl⟩

end Namegen
